import Mathlib

/-!
Shallow embedding of the WAHA Home Assistant integration's core client
(`custom_components/waha/api_client.py`, `custom_components/waha/helpers.py`)
and proofs of the specified properties.

Time values and delays are modelled as rationals (`ℚ`).  The event loop is
cooperative and the rate-limiter lock is held across the whole body of
`_wait_for_rate_limit` (including its sleep), so concurrent acquisitions
serialize; traces of acquisitions are therefore modelled as sequences.
-/

namespace Waha

/-- Python-level exceptions that the embedded code can raise and that are not
subclasses of `WahaApiError`. -/
inductive PyErr : Type
  | indexError
  | attributeError
  | valueError
  deriving DecidableEq, Repr

/-- The exception taxonomy of `api_client.py`.  Every constructor is a
subclass of `WahaApiError` in the source (`WahaConnectionError`,
`WahaAuthenticationError`, `WahaRateLimitError` all derive from it). -/
inductive WahaError : Type
  | connection
  | authentication
  | rateLimit
  | api (status : Nat)
  deriving DecidableEq, Repr

/-- JSON values, as returned by `resp.json()`. -/
inductive Json : Type
  | obj (fields : List (String × Json))
  | arr (elems : List Json)
  | str (s : String)
  | num (n : Int)
  | bool (b : Bool)
  | null

/-- Python `dict.get`: `none` when the key is absent. -/
def dictGet (key : String) : List (String × Json) → Option Json
  | [] => none
  | (k, v) :: rest => if k = key then some v else dictGet key rest

/-- `response.get(key)` in Python: works on a dict (returning the value or
`None`), raises `AttributeError` on any non-dict value. -/
def Json.get (j : Json) (key : String) : Except PyErr (Option Json) :=
  match j with
  | .obj fields => .ok (dictGet key fields)
  | _ => .error .attributeError

/-- One observable gateway behaviour for a single HTTP request:
either a network-level failure (`asyncio.TimeoutError` / `aiohttp.ClientError`),
or an HTTP response with a status code and a body
(`none` = the body fails JSON decoding). -/
inductive GatewayBehavior : Type
  | netFail
  | resp (status : Nat) (body : Option Json)

/-- `WahaApiClient._make_request` (api_client.py lines 91-162): classifies a
single request's outcome.  401 → authentication error, 429 → rate-limit
error, any other non-200 → generic API error, JSON decode failure on a 200
→ generic API error, network failure → connection error. -/
def make_request (g : GatewayBehavior) : Except WahaError Json :=
  match g with
  | .netFail => .error .connection
  | .resp status body =>
      if status = 401 then .error .authentication
      else if status = 429 then .error .rateLimit
      else if status ≠ 200 then .error (.api status)
      else
        match body with
        | some j => .ok j
        | none => .error (.api 200)

/-- Result of `async_retry` together with its observable trace:
the returned value or the raised exception (`error none` models the
degenerate `raise None` when the loop body never ran), the number of calls
to `func`, and the list of back-off sleeps performed. -/
structure RetryTrace (E T : Type) : Type where
  result : Except (Option E) T
  calls : Nat
  sleeps : List ℚ

/-- Python's binary `min` on rationals, written with an explicit comparison so
that it evaluates by kernel reduction. -/
def ratMin (a b : ℚ) : ℚ := if a ≤ b then a else b

/-- The loop of `helpers.async_retry` (helpers.py lines 10-36), recursing on
the number of attempts remaining.  `attempt` is the 1-based attempt counter
and `cur` the current back-off delay. -/
def retryLoop {E T : Type} (func : Nat → Except E T) (backoff_factor max_delay : ℚ) :
    Nat → Nat → ℚ → RetryTrace E T
  | 0, _, _ => ⟨.error none, 0, []⟩
  | remaining + 1, attempt, cur =>
      match func attempt with
      | .ok v => ⟨.ok v, 1, []⟩
      | .error e =>
          if remaining = 0 then ⟨.error (some e), 1, []⟩
          else
            let r := retryLoop func backoff_factor max_delay remaining (attempt + 1)
              (ratMin (cur * backoff_factor) max_delay)
            ⟨r.result, r.calls + 1, cur :: r.sleeps⟩

/-- `helpers.async_retry(func, attempts, delay, max_delay, backoff_factor)`.
Its `exceptions` parameter is left at the source default `(Exception,)`:
every error raised by `func` is caught and retried. -/
def async_retry {E T : Type} (func : Nat → Except E T) (attempts : Nat)
    (delay max_delay backoff_factor : ℚ) : RetryTrace E T :=
  retryLoop func backoff_factor max_delay attempts 1 delay

/-- The inner `_send` closure of `send_message` (api_client.py lines 222-234):
a successful request returns `True`; every `WahaApiError` (hence every
classified error, authentication errors included) is caught and re-raised as
a plain `Exception`, so it reaches `async_retry` as a retryable error. -/
def send_attempt (g : Nat → GatewayBehavior) (attempt : Nat) : Except WahaError Bool :=
  match make_request (g attempt) with
  | .ok _ => .ok true
  | .error e => .error e

/-- Observable outcome of `send_message`: the boolean returned to the caller,
the number of HTTP requests issued and the back-off sleeps performed. -/
structure SendTrace : Type where
  success : Bool
  calls : Nat
  sleeps : List ℚ
  deriving DecidableEq, Repr

/-- `WahaApiClient.send_message` (api_client.py lines 202-240), with the
rate-limiter interaction factored out (see `send_message_full`): wraps
`_send` in `async_retry` and converts any escaping exception into `False`.
`g i` is the gateway's behaviour on the `i`-th request (1-based). -/
def send_message (g : Nat → GatewayBehavior) (retry_attempts : Nat)
    (retry_delay : ℚ) : SendTrace :=
  let r := async_retry (send_attempt g) retry_attempts retry_delay 10 2
  match r.result with
  | .ok b => ⟨b, r.calls, r.sleeps⟩
  | .error _ => ⟨false, r.calls, r.sleeps⟩

/-- A gateway that answers 401 (authentication failure) to every request. -/
def gateway401 : Nat → GatewayBehavior := fun _ => .resp 401 none

/-- A gateway that answers 500 to the first two requests and 200 (with a
well-formed JSON body) to the third. -/
def gateway500x2 : Nat → GatewayBehavior := fun i =>
  if i ≤ 2 then .resp 500 none else .resp 200 (some .null)

/-- The eviction loop of `_wait_for_rate_limit` (api_client.py line 169):
pop timestamps from the front of the deque while the front is strictly more
than 60 seconds old; stop at the first timestamp that is not. -/
def evict (now : ℚ) : List ℚ → List ℚ
  | [] => []
  | t :: ts => if 60 < now - t then evict now ts else t :: ts

/-- `deque.append` with `maxlen` (api_client.py line 66): appending to a full
deque silently discards the leftmost element, so the length never exceeds
`maxlen`. -/
def dequeAppend (maxlen : Nat) (ts : List ℚ) (t : ℚ) : List ℚ :=
  (ts ++ [t]).drop (ts.length + 1 - maxlen)

/-- The duration `_wait_for_rate_limit` sleeps (api_client.py lines 173-177),
computed after eviction: `60 - (now - oldest)` when the window is at
capacity and that quantity is positive, otherwise 0.  When `rate_limit = 0`
the capacity test `len >= rate_limit` passes on an empty deque and
`message_timestamps[0]` raises `IndexError`. -/
def rateWait (N : Nat) (ts : List ℚ) (now : ℚ) : Except PyErr ℚ :=
  let ts1 := evict now ts
  if N ≤ ts1.length then
    match ts1 with
    | [] => .error .indexError
    | t0 :: _ => .ok (if 0 < 60 - (now - t0) then 60 - (now - t0) else 0)
  else .ok 0

/-- The state transition of `_wait_for_rate_limit` (api_client.py lines
164-180): evict expired timestamps, then append the admission timestamp
`fin` (the value of `time.time()` after any sleep).  Both branches of the
capacity test append the same way. -/
def wait_for_rate_limit (N : Nat) (ts : List ℚ) (now fin : ℚ) :
    Except PyErr (List ℚ) :=
  match rateWait N ts now with
  | .error e => .error e
  | .ok _ => .ok (dequeAppend N (evict now ts) fin)

/-- The deque after one acquisition, ignoring the `rate_limit = 0` crash. -/
def admitOne (N : Nat) (ts : List ℚ) (now fin : ℚ) : List ℚ :=
  dequeAppend N (evict now ts) fin

/-- One acquisition event: `now` is the clock at entry (the first
`time.time()` call), `fin` the clock when the admission timestamp is
appended (the second `time.time()` call, after any sleep). -/
structure Acq : Type where
  now : ℚ
  fin : ℚ

/-- The environment constraints under which one acquisition executes:
the clock does not go backwards (`c ≤ now ≤ fin`), and when the window is at
capacity the code has slept until `60 - (now - oldest)` has elapsed, so the
append happens no earlier than `oldest + 60` (if the computed wait is not
positive, `now` itself is already past `oldest + 60`). -/
def acqOK (N : Nat) (ts : List ℚ) (c : ℚ) (a : Acq) : Prop :=
  c ≤ a.now ∧ a.now ≤ a.fin ∧
    (N ≤ (evict a.now ts).length →
      ∀ t0, (evict a.now ts).head? = some t0 → t0 + 60 ≤ a.fin)

/-- A realizable execution of a sequence of acquisitions.  The lock of
`_wait_for_rate_limit` is held across its whole body (eviction, sleep and
append), so even concurrent acquisitions serialize into such a sequence;
`c` is a lower bound on the clock when the next acquisition starts. -/
def ValidTrace (N : Nat) : List ℚ → ℚ → List Acq → Prop
  | _, _, [] => True
  | ts, c, a :: rest =>
      acqOK N ts c a ∧ ValidTrace N (admitOne N ts a.now a.fin) a.fin rest

/-- Run a sequence of acquisitions from a given deque state. -/
def runAcqs (N : Nat) : List ℚ → List Acq → List ℚ
  | ts, [] => ts
  | ts, a :: rest => runAcqs N (admitOne N ts a.now a.fin) rest

/-- The timestamps admitted by a trace, in admission order (each acquisition
appends exactly its `fin`). -/
def admitted (tr : List Acq) : List ℚ := tr.map Acq.fin

/-- Membership of a timestamp in the trailing 60-second window ending at
`T`: strictly newer than `T - 60` and no newer than `T`. -/
def inWindow (T t : ℚ) : Bool := decide (T - 60 < t ∧ t ≤ T)

/-- The inductive invariant that ties the deque `ts` to the full list `A`
of admitted timestamps and a clock lower bound `c`: the deque is a suffix
of the admissions, never longer than `N`; admissions are in chronological
order, all no later than `c`; any two admissions `N` apart are at least 60
seconds apart; and every admission already dropped from the deque is at
least 60 seconds older than `c`. -/
structure Inv (N : Nat) (ts A : List ℚ) (c : ℚ) : Prop where
  suffix : ts.IsSuffix A
  lenle : ts.length ≤ N
  mono : ∀ i j, i ≤ j → j < A.length → A.getD i 0 ≤ A.getD j 0
  ub : ∀ x ∈ A, x ≤ c
  spacing : ∀ i, i + N < A.length → A.getD i 0 + 60 ≤ A.getD (i + N) 0
  dropped : ∀ i, i < A.length - ts.length → A.getD i 0 + 60 ≤ c

/-- Outcome of one `send_message` call including its rate-limiter effect:
the boolean result, the new deque contents, the number of HTTP requests,
the back-off sleeps, and how many rate-limiter acquisitions were made. -/
structure SendOutcome : Type where
  success : Bool
  timestamps : List ℚ
  calls : Nat
  sleeps : List ℚ
  acquisitions : Nat

/-- `WahaApiClient.send_message` (api_client.py lines 202-240) including its
rate-limiter interaction: `_wait_for_rate_limit` runs exactly once, before
the `async_retry` loop; the retry loop never touches the deque.  The only
exception that can escape is the `IndexError` raised inside
`_wait_for_rate_limit` when `rate_limit = 0` (it is raised outside the
`try` block); everything the retry loop re-raises is caught and turned
into `False`. -/
def send_message_full (N : Nat) (ts : List ℚ) (now fin : ℚ)
    (g : Nat → GatewayBehavior) (retry_attempts : Nat) (retry_delay : ℚ) :
    Except PyErr SendOutcome :=
  match wait_for_rate_limit N ts now fin with
  | .error e => .error e
  | .ok ts' =>
      let r := async_retry (send_attempt g) retry_attempts retry_delay 10 2
      match r.result with
      | .ok b => .ok ⟨b, ts', r.calls, r.sleeps, 1⟩
      | .error _ => .ok ⟨false, ts', r.calls, r.sleeps, 1⟩

/-- The attempt closure of webhook registration: POST the webhook URL, treat
any classified error as retryable, exactly as `send_message`'s `_send`. -/
def register_attempt (g : Nat → GatewayBehavior) (attempt : Nat) :
    Except WahaError Bool :=
  match make_request (g attempt) with
  | .ok _ => .ok true
  | .error e => .error e

/-- Modelled from the spec: `WahaApiClient.register_webhook` is absent from
the repository's `api_client.py` (only its tests in
`tests/test_api_client.py` and its guarded caller in `webhook.py` refer to
it).  Per the spec it POSTs to the gateway's webhook-registration endpoint
with the same retry/back-off policy as `send_message`, but performs no
rate-limiting: the deque of timestamps is not consulted and nothing is
appended to it. -/
def register_webhook_full (_N : Nat) (ts : List ℚ)
    (g : Nat → GatewayBehavior) (retry_attempts : Nat) (retry_delay : ℚ) :
    Except PyErr SendOutcome :=
  let r := async_retry (register_attempt g) retry_attempts retry_delay 10 2
  match r.result with
  | .ok b => .ok ⟨b, ts, r.calls, r.sleeps, 0⟩
  | .error _ => .ok ⟨false, ts, r.calls, r.sleeps, 0⟩

/-- `WahaApiClient.get_session_status` (api_client.py lines 262-275): one
request, `except WahaApiError` returns `None`; on success the parsed body's
`.get("status")` is returned — which raises `AttributeError` when the body
is not a JSON object.  Only `g 1` is ever consulted: there is no retry. -/
def get_session_status (g : Nat → GatewayBehavior) :
    Except PyErr (Option Json) :=
  match make_request (g 1) with
  | .error _ => .ok none
  | .ok response => response.get "status"

/-- `WahaApiClient.get_qr_code` (api_client.py lines 244-260): same shape as
`get_session_status` with key `"qr"`. -/
def get_qr_code (g : Nat → GatewayBehavior) : Except PyErr (Option Json) :=
  match make_request (g 1) with
  | .error _ => .ok none
  | .ok response => response.get "qr"

/-- `WahaApiClient.logout` (api_client.py lines 277-293): one request,
`True` on any 200 response, `False` on every classified error; the body is
never inspected, so no attribute access can raise. -/
def logout (g : Nat → GatewayBehavior) : Except PyErr Bool :=
  match make_request (g 1) with
  | .error _ => .ok false
  | .ok _ => .ok true

/-- `WahaApiClient.__init__` (api_client.py lines 38-67).  The only
operation that can reject `rate_limit` is `deque(maxlen=rate_limit)`, which
raises `ValueError` for a negative `maxlen` and accepts `0`.  The result is
the client's `rate_limit` field together with the empty deque. -/
def waha_client_init (rate_limit : Int) : Except PyErr (Int × List ℚ) :=
  if rate_limit < 0 then .error .valueError
  else .ok (rate_limit, [])

/-- The character class kept by `re.sub(r'[^0-9+]', '', ...)`
(helpers.py line 42). -/
def keepChar (c : Char) : Bool := c.isDigit || c = '+'

/-- The regex `^[0-9]{10,15}$` of helpers.py line 45. -/
def matchBareDigits (ds : List Char) : Bool :=
  ds.all Char.isDigit && decide (10 ≤ ds.length ∧ ds.length ≤ 15)

/-- The regex `^\+[0-9]{10,15}$` of helpers.py line 43: a leading `+`
followed by 10-15 digits and nothing else. -/
def matchPlusDigits (cs : List Char) : Bool :=
  match cs with
  | c :: ds => c == '+' && matchBareDigits ds
  | [] => false

/-- `helpers.validate_phone_number` (helpers.py lines 38-47), on the
character list of the input string: strip everything but digits and `+`
(the `cleaned` local, inlined here); accept `+` followed by 10-15 digits as
is; accept 10-15 bare digits by prefixing `+`; otherwise `None`. -/
def validate_phone_number (s : List Char) : Option (List Char) :=
  if matchPlusDigits (s.filter keepChar) then some (s.filter keepChar)
  else if matchBareDigits (s.filter keepChar) then some ('+' :: s.filter keepChar)
  else none

/-- The digit characters of the input, in order. -/
def digitsOf (s : List Char) : List Char := s.filter Char.isDigit

/-! ## Helper lemmas -/

/-- One-step unfolding of `retryLoop` on a positive remaining count. -/
theorem retryLoop_succ_eq {E T : Type} (func : Nat → Except E T) (b m : ℚ)
    (r attempt : Nat) (cur : ℚ) :
    retryLoop func b m (r + 1) attempt cur =
      match func attempt with
      | .ok v => ⟨.ok v, 1, []⟩
      | .error e =>
          if r = 0 then ⟨.error (some e), 1, []⟩
          else
            ⟨(retryLoop func b m r (attempt + 1) (ratMin (cur * b) m)).result,
             (retryLoop func b m r (attempt + 1) (ratMin (cur * b) m)).calls + 1,
             cur :: (retryLoop func b m r (attempt + 1) (ratMin (cur * b) m)).sleeps⟩ :=
  rfl

/-- When every attempt fails, the retry loop uses its whole budget and
raises the error of the last attempt. -/
theorem retryLoop_allFail {E T : Type} (func : Nat → Except E T)
    (err : Nat → E) (hf : ∀ i, func i = .error (err i)) (b m : ℚ) :
    ∀ (r attempt : Nat) (cur : ℚ),
      ∃ s, retryLoop func b m (r + 1) attempt cur =
        ⟨.error (some (err (attempt + r))), r + 1, s⟩ := by
  intro r
  induction r with
  | zero =>
      intro attempt cur
      refine ⟨[], ?_⟩
      rw [retryLoop_succ_eq, hf attempt]
      simp
  | succ r ih =>
      intro attempt cur
      obtain ⟨s, hs⟩ := ih (attempt + 1) (ratMin (cur * b) m)
      refine ⟨cur :: s, ?_⟩
      have harith : attempt + 1 + r = attempt + (r + 1) := by omega
      rw [harith] at hs
      rw [retryLoop_succ_eq, hf attempt]
      dsimp only
      rw [if_neg (Nat.succ_ne_zero r), hs]

/-- For a rate limit of at least 1, `_wait_for_rate_limit` cannot raise:
it returns the deque with expired entries evicted and the admission
timestamp appended. -/
theorem wait_for_rate_limit_ok (N : Nat) (hN : 1 ≤ N) (ts : List ℚ)
    (now fin : ℚ) :
    wait_for_rate_limit N ts now fin = .ok (admitOne N ts now fin) := by
  have hne : N ≠ 0 := by omega
  unfold wait_for_rate_limit rateWait
  cases h : evict now ts with
  | nil => simp [admitOne, h, hne]
  | cons t0 rest =>
      simp only [admitOne, h]
      rcases le_or_lt N ((t0 :: rest).length) with hle | hlt
      · rw [if_pos hle]
      · rw [if_neg (by omega : ¬ N ≤ (t0 :: rest).length)]


/-- The eviction loop removes a prefix of timestamps, each strictly more
than 60 seconds older than `now`. -/
theorem evict_decomp (now : ℚ) (ts : List ℚ) :
    ∃ d, d ++ evict now ts = ts ∧ ∀ x ∈ d, x + 60 < now := by
  induction ts with
  | nil => exact ⟨[], rfl, by simp⟩
  | cons t ts ih =>
      by_cases h : 60 < now - t
      · obtain ⟨d, hd, hold⟩ := ih
        refine ⟨t :: d, ?_, ?_⟩
        · simp only [evict, if_pos h, List.cons_append, hd]
        · intro x hx
          rcases List.mem_cons.mp hx with rfl | hx
          · linarith
          · exact hold x hx
      · exact ⟨[], by simp [evict, if_neg h], by simp⟩

/-- Eviction does not touch a deque whose front is at most 60 seconds
old. -/
theorem evict_fresh_head (now t : ℚ) (ts : List ℚ) (h : now - t ≤ 60) :
    evict now (t :: ts) = t :: ts := by
  simp only [evict, if_neg (by linarith : ¬ 60 < now - t)]

/-- Appending below capacity is a plain append. -/
theorem dequeAppend_lt (N : Nat) (ts : List ℚ) (t : ℚ) (h : ts.length < N) :
    dequeAppend N ts t = ts ++ [t] := by
  unfold dequeAppend
  rw [Nat.sub_eq_zero_of_le h, List.drop_zero]

/-- Appending at capacity discards the front element. -/
theorem dequeAppend_full (N : Nat) (hN : 1 ≤ N) (ts : List ℚ) (t : ℚ)
    (h : ts.length = N) : dequeAppend N ts t = ts.tail ++ [t] := by
  unfold dequeAppend
  rw [h, Nat.add_sub_cancel_left]
  cases ts with
  | nil => rw [← h] at hN; exact absurd hN (by simp)
  | cons a l => rfl

/-- The deque never exceeds its capacity. -/
theorem dequeAppend_length (N : Nat) (ts : List ℚ) (t : ℚ) :
    (dequeAppend N ts t).length = min (ts.length + 1) N := by
  unfold dequeAppend
  rw [List.length_drop, List.length_append]
  simp only [List.length_cons, List.length_nil]
  omega

/-- Appending the same element preserves the suffix relation. -/
theorem suffix_append_one {xs ys : List ℚ} (h : xs.IsSuffix ys) (t : ℚ) :
    (xs ++ [t]).IsSuffix (ys ++ [t]) := by
  obtain ⟨u, hu⟩ := h
  exact ⟨u, by rw [← List.append_assoc, hu]⟩

/-- Reading a suffix at index `i` reads the ambient list shifted by the
length difference. -/
theorem suffix_getD {s A : List ℚ} (h : s.IsSuffix A) (i : Nat) :
    A.getD (A.length - s.length + i) 0 = s.getD i 0 := by
  obtain ⟨u, hu⟩ := h
  subst hu
  rw [List.length_append, Nat.add_sub_cancel]
  have h2 : u.length ≤ u.length + i := Nat.le_add_right _ _
  rw [List.getD_append_right _ _ _ _ h2, Nat.add_sub_cancel_left]

/-- An indexed element is a member. -/
theorem getD_mem_of_lt (l : List ℚ) (i : Nat) (h : i < l.length) :
    l.getD i 0 ∈ l := by
  rw [List.getD_eq_getElem _ _ h]
  exact List.getElem_mem h


theorem Inv.step (N : Nat) (hN : 1 ≤ N) (ts A : List ℚ) (c : ℚ)
    (inv : Inv N ts A c) (a : Acq) (hok : acqOK N ts c a) :
    Inv N (admitOne N ts a.now a.fin) (A ++ [a.fin]) a.fin := by
  obtain ⟨hcnow, hnowfin, hcap⟩ := hok
  obtain ⟨d, hd, hdold⟩ := evict_decomp a.now ts
  obtain ⟨pre, hpre⟩ := inv.suffix
  have hlenle := inv.lenle
  have hts1suf : (evict a.now ts).IsSuffix A :=
    ⟨pre ++ d, by rw [List.append_assoc, hd, hpre]⟩
  have hlen_ts : ts.length = d.length + (evict a.now ts).length := by
    conv_lhs => rw [← hd, List.length_append]
  have hlenA : A.length = pre.length + ts.length := by
    rw [← hpre, List.length_append]
  have hlen1 : (evict a.now ts).length ≤ N := by omega
  have hdrop1 : ∀ i, i < A.length - (evict a.now ts).length →
      A.getD i 0 + 60 ≤ a.now := by
    intro i hi
    rcases Nat.lt_or_ge i pre.length with hilt | hige
    · have h1 := inv.dropped i (by omega)
      linarith
    · have hAeq : A = pre ++ (d ++ evict a.now ts) := by rw [hd, hpre]
      have h2 : A.getD i 0 = (d ++ evict a.now ts).getD (i - pre.length) 0 := by
        conv_lhs => rw [hAeq]
        exact List.getD_append_right _ _ _ _ hige
      have hidx : i - pre.length < d.length := by omega
      have h3 : (d ++ evict a.now ts).getD (i - pre.length) 0
          = d.getD (i - pre.length) 0 := List.getD_append _ _ _ _ hidx
      have h4 : d.getD (i - pre.length) 0 ∈ d := getD_mem_of_lt _ _ hidx
      have h5 := hdold _ h4
      rw [h2, h3]
      linarith
  have hubA : ∀ x ∈ A, x ≤ a.fin := fun x hx =>
    le_trans (inv.ub x hx) (le_trans hcnow hnowfin)
  have hmono2 : ∀ i j, i ≤ j → j < (A ++ [a.fin]).length →
      (A ++ [a.fin]).getD i 0 ≤ (A ++ [a.fin]).getD j 0 := by
    intro i j hij hj
    rw [List.length_append, List.length_cons, List.length_nil] at hj
    rcases Nat.lt_or_ge j A.length with hjlt | hjge
    · rw [List.getD_append _ _ _ _ (by omega : i < A.length),
        List.getD_append _ _ _ _ hjlt]
      exact inv.mono i j hij hjlt
    · have hj2 : j = A.length := by omega
      subst hj2
      have hgetj : (A ++ [a.fin]).getD A.length 0 = a.fin := by
        rw [List.getD_append_right _ _ _ _ (le_refl A.length), Nat.sub_self]
        rfl
      rw [hgetj]
      rcases Nat.lt_or_ge i A.length with hilt | hige
      · rw [List.getD_append _ _ _ _ hilt]
        exact hubA _ (getD_mem_of_lt _ _ hilt)
      · have hieq : i = A.length := by omega
        subst hieq
        rw [hgetj]
  have hub2 : ∀ x ∈ A ++ [a.fin], x ≤ a.fin := by
    intro x hx
    rcases List.mem_append.mp hx with hx | hx
    · exact hubA x hx
    · rw [List.mem_singleton.mp hx]
  rcases Nat.lt_or_ge (evict a.now ts).length N with hlt | hge
  · have hadm : admitOne N ts a.now a.fin = evict a.now ts ++ [a.fin] := by
      unfold admitOne
      exact dequeAppend_lt _ _ _ hlt
    refine ⟨?_, ?_, hmono2, hub2, ?_, ?_⟩
    · rw [hadm]
      exact suffix_append_one hts1suf _
    · rw [hadm, List.length_append]
      simp only [List.length_cons, List.length_nil]
      omega
    · intro i hi
      rw [List.length_append, List.length_cons, List.length_nil] at hi
      rcases Nat.lt_or_ge (i + N) A.length with hilt | hige
      · rw [List.getD_append _ _ _ _ (by omega : i < A.length),
          List.getD_append _ _ _ _ hilt]
        exact inv.spacing i hilt
      · have hieq : i + N = A.length := by omega
        have hiA : i < A.length := by omega
        have hgetj : (A ++ [a.fin]).getD (i + N) 0 = a.fin := by
          rw [hieq, List.getD_append_right _ _ _ _ (le_refl A.length),
            Nat.sub_self]
          rfl
        rw [hgetj, List.getD_append _ _ _ _ hiA]
        have h6 := hdrop1 i (by omega)
        linarith
    · intro i hi
      rw [hadm, List.length_append, List.length_append] at hi
      simp only [List.length_cons, List.length_nil] at hi
      have hi2 : i < A.length - (evict a.now ts).length := by omega
      have hiA : i < A.length := by omega
      rw [List.getD_append _ _ _ _ hiA]
      have h6 := hdrop1 i hi2
      linarith
  · have heq : (evict a.now ts).length = N := le_antisymm hlen1 hge
    obtain ⟨t0, rest, hts1⟩ : ∃ t0 rest, evict a.now ts = t0 :: rest := by
      cases hE : evict a.now ts with
      | nil => rw [hE] at heq; simp only [List.length_nil] at heq; omega
      | cons x l => exact ⟨x, l, rfl⟩
    have htail_len : (evict a.now ts).tail.length + 1 = N := by
      rw [hts1] at heq ⊢
      simpa using heq
    have hwait : t0 + 60 ≤ a.fin := by
      refine hcap (by omega) t0 ?_
      rw [hts1]
      rfl
    have ht0 : A.getD (A.length - N) 0 = t0 := by
      have h7 := suffix_getD hts1suf 0
      rw [heq, Nat.add_zero] at h7
      rw [h7, hts1]
      rfl
    have hNA : N ≤ A.length := by
      obtain ⟨u, hu⟩ := hts1suf
      rw [← hu, List.length_append, heq]
      omega
    have hadm : admitOne N ts a.now a.fin = (evict a.now ts).tail ++ [a.fin] := by
      unfold admitOne
      exact dequeAppend_full _ hN _ _ heq
    refine ⟨?_, ?_, hmono2, hub2, ?_, ?_⟩
    · rw [hadm]
      exact suffix_append_one ((List.tail_suffix _).trans hts1suf) _
    · rw [hadm, List.length_append]
      simp only [List.length_cons, List.length_nil]
      omega
    · intro i hi
      rw [List.length_append, List.length_cons, List.length_nil] at hi
      rcases Nat.lt_or_ge (i + N) A.length with hilt | hige
      · rw [List.getD_append _ _ _ _ (by omega : i < A.length),
          List.getD_append _ _ _ _ hilt]
        exact inv.spacing i hilt
      · have hieq : i + N = A.length := by omega
        have hiA : i < A.length := by omega
        have hgetj : (A ++ [a.fin]).getD (i + N) 0 = a.fin := by
          rw [hieq, List.getD_append_right _ _ _ _ (le_refl A.length),
            Nat.sub_self]
          rfl
        rw [hgetj, List.getD_append _ _ _ _ hiA]
        have hi0 : i = A.length - N := by omega
        rw [hi0, ht0]
        exact hwait
    · intro i hi
      rw [hadm, List.length_append, List.length_append] at hi
      simp only [List.length_cons, List.length_nil] at hi
      have hiA : i < A.length := by omega
      rw [List.getD_append _ _ _ _ hiA]
      rcases Nat.lt_or_ge i (A.length - N) with hlt2 | hge2
      · have h6 := hdrop1 i (by omega)
        linarith
      · have hieq : i = A.length - N := by omega
        rw [hieq, ht0]
        exact hwait


/-- The invariant holds for the initial state: empty deque, no admissions. -/
theorem Inv.initial (N : Nat) (c : ℚ) : Inv N [] [] c :=
  ⟨⟨[], rfl⟩, Nat.zero_le N,
    fun _ j _ hj => absurd hj (by simp),
    fun x hx => absurd hx (List.not_mem_nil x),
    fun _ h => absurd h (by simp),
    fun _ h => absurd h (by simp)⟩

/-- Running a valid trace preserves the invariant, accumulating the
admitted timestamps. -/
theorem validTrace_inv (N : Nat) (hN : 1 ≤ N) :
    ∀ (tr : List Acq) (ts A : List ℚ) (c : ℚ),
      Inv N ts A c → ValidTrace N ts c tr →
      ∃ ts2 c2, Inv N ts2 (A ++ admitted tr) c2 := by
  intro tr
  induction tr with
  | nil =>
      intro ts A c inv _
      exact ⟨ts, c, by simpa [admitted] using inv⟩
  | cons a rest ih =>
      intro ts A c inv hv
      obtain ⟨hok, hrest⟩ := hv
      obtain ⟨ts2, c2, h2⟩ :=
        ih (admitOne N ts a.now a.fin) (A ++ [a.fin]) a.fin
          (Inv.step N hN ts A c inv a hok) hrest
      refine ⟨ts2, c2, ?_⟩
      have hre : A ++ [a.fin] ++ admitted rest = A ++ admitted (a :: rest) := by
        simp [admitted, List.append_assoc]
      rw [← hre]
      exact h2

/-- In a chronologically ordered list, everything beyond index `N` is at
least the element at index `N`. -/
theorem getD_le_of_mem_drop {A : List ℚ} {N : Nat}
    (hmono : ∀ i j, i ≤ j → j < A.length → A.getD i 0 ≤ A.getD j 0)
    {t : ℚ} (ht : t ∈ A.drop N) : A.getD N 0 ≤ t := by
  obtain ⟨j, hj, hjt⟩ := List.getElem_of_mem ht
  have hjlen : N + j < A.length := by
    have hl := List.length_drop N A
    omega
  have hteq : t = A.getD (N + j) 0 := by
    rw [List.getD_eq_getElem _ _ hjlen, ← hjt]
    exact List.getElem_drop _
  rw [hteq]
  exact hmono N (N + j) (Nat.le_add_right _ _) hjlen

/-- A chronologically ordered list in which admissions `N` apart are at
least 60 seconds apart has at most `N` elements in any window `(T-60, T]`. -/
theorem window_bound (N : Nat) (A : List ℚ)
    (hmono : ∀ i j, i ≤ j → j < A.length → A.getD i 0 ≤ A.getD j 0)
    (hsp : ∀ i, i + N < A.length → A.getD i 0 + 60 ≤ A.getD (i + N) 0)
    (T : ℚ) : A.countP (inWindow T) ≤ N := by
  induction A with
  | nil => simp
  | cons x B ih =>
      by_cases hx : inWindow T x = true
      · rcases Nat.lt_or_ge N ((x :: B).length) with hlen | hlen
        · have hx2 : T - 60 < x ∧ x ≤ T := by simpa [inWindow] using hx
          have hNT : T < (x :: B).getD N 0 := by
            have hs0 := hsp 0 (by omega)
            have h00 : (0 : Nat) + N = N := by omega
            rw [h00] at hs0
            have h01 : (x :: B).getD 0 0 = x := rfl
            rw [h01] at hs0
            linarith [hx2.1]
          have hcut : ∀ t ∈ List.drop N (x :: B), ¬ inWindow T t = true := by
            intro t ht
            have h6 := getD_le_of_mem_drop hmono ht
            have hTt : T < t := lt_of_lt_of_le hNT h6
            simp only [inWindow, decide_eq_true_eq, not_and]
            intro _
            linarith
          calc (x :: B).countP (inWindow T)
              = ((x :: B).take N).countP (inWindow T) +
                ((x :: B).drop N).countP (inWindow T) := by
                rw [← List.countP_append, List.take_append_drop]
            _ = ((x :: B).take N).countP (inWindow T) := by
                rw [List.countP_eq_zero.mpr hcut, Nat.add_zero]
            _ ≤ ((x :: B).take N).length := List.countP_le_length _
            _ ≤ N := by
                rw [List.length_take]
                exact Nat.min_le_left _ _
        · exact le_trans (List.countP_le_length _) hlen
      · have hcount : (x :: B).countP (inWindow T) = B.countP (inWindow T) := by
          rw [List.countP_cons]
          simp [hx]
        rw [hcount]
        refine ih ?_ ?_
        · intro i j hij hj
          have h7 := hmono (i + 1) (j + 1) (by omega)
            (by simpa using Nat.succ_lt_succ hj)
          simpa [List.getD_cons_succ] using h7
        · intro i hi
          have hlen2 : (i + 1) + N < (x :: B).length := by
            simp only [List.length_cons]
            omega
          have h8 := hsp (i + 1) hlen2
          have h9 : (i + 1) + N = (i + N) + 1 := by omega
          rw [h9] at h8
          simpa [List.getD_cons_succ] using h8

/-- Running acquisitions splits over list concatenation. -/
theorem runAcqs_append (N : Nat) (l1 l2 : List Acq) :
    ∀ ts, runAcqs N ts (l1 ++ l2) = runAcqs N (runAcqs N ts l1) l2 := by
  induction l1 with
  | nil => intro ts; rfl
  | cons a l ih => intro ts; exact ih (admitOne N ts a.now a.fin)

/-- After `k ≤ N` instantaneous acquisitions at times `u 0, ..., u (k-1)`
within one 60-second span, the deque holds exactly those times. -/
theorem rapid_state (N : Nat) (u : Nat → ℚ) :
    ∀ k, k ≤ N → (∀ m, m < k → u m - u 0 ≤ 60) →
      runAcqs N [] ((List.range k).map (fun i => Acq.mk (u i) (u i))) =
        (List.range k).map u := by
  intro k
  induction k with
  | zero => intro _ _; rfl
  | succ k ih =>
      intro hk hwin
      rw [List.range_succ, List.map_append, runAcqs_append,
        ih (by omega) (fun m hm => hwin m (by omega))]
      show admitOne N ((List.range k).map u) (u k) (u k) = _
      unfold admitOne
      have hevict : evict (u k) ((List.range k).map u) = (List.range k).map u := by
        cases k with
        | zero => rfl
        | succ k2 =>
            rw [List.range_succ_eq_map, List.map_cons]
            exact evict_fresh_head _ _ _ (hwin (k2 + 1) (by omega))
      rw [hevict, dequeAppend_lt N _ _ (by
        rw [List.length_map, List.length_range]
        omega)]
      simp

/-! ## Claim theorems -/

/-- C1 (counterexample): against a gateway that always answers 401,
`send_message` with the default retry parameters issues 3 HTTP requests,
not exactly one: the inner `_send` re-raises every `WahaApiError`
(authentication errors included) as a plain `Exception`, which
`async_retry` retries. -/
theorem send_message_401_three_requests :
    (send_message gateway401 3 1).calls = 3 ∧
      (send_message gateway401 3 1).calls ≠ 1 ∧
      (send_message gateway401 3 1).success = false := by
  refine ⟨by decide, by decide, by decide⟩

/-- C1 (amended): the retry loop of `send_message` retries on every
classified error, authentication errors included: when the gateway answers
401 to every request, all `retry_attempts` requests are issued (not one)
and the call reports failure by returning `False` (a generic failure, not a
distinguished authentication failure). -/
theorem send_message_401_uses_full_budget (attempts : Nat) (delay : ℚ)
    (hA : 1 ≤ attempts) :
    ∃ s, send_message gateway401 attempts delay =
      ⟨false, attempts, s⟩ := by
  obtain ⟨r, hr⟩ := Nat.exists_eq_add_of_le hA
  subst hr
  obtain ⟨s, hs⟩ := retryLoop_allFail (send_attempt gateway401)
    (fun _ => WahaError.authentication) (fun _ => rfl) 2 10 r 1 delay
  refine ⟨s, ?_⟩
  rw [Nat.add_comm 1 r]
  have hra : async_retry (send_attempt gateway401) (r + 1) delay 10 2 =
      ⟨.error (some .authentication), r + 1, s⟩ := hs
  unfold send_message
  rw [hra]

/-- C1 witness for the amended claim at `attempts = 3`, `delay = 1`. -/
theorem send_message_401_uses_full_budget_witness :
    ∃ s, send_message gateway401 3 1 = ⟨false, 3, s⟩ :=
  send_message_401_uses_full_budget 3 1 (by decide)

/-- C6: against a gateway answering 500, 500, then 200, `send_message`
with the default retry parameters (3 attempts, initial delay 1.0,
multiplier 2.0, cap 10.0) succeeds, issues exactly 3 HTTP requests, and
sleeps 1.0s then 2.0s between the attempts. -/
theorem send_message_500_500_200_trace :
    send_message gateway500x2 3 1 = ⟨true, 3, [1, 2]⟩ := by
  have h : send_message gateway500x2 3 1 = ⟨true, 3, [1, ratMin (1 * 2) 10]⟩ := rfl
  rw [h]
  norm_num [ratMin]

/-- C7 (code evaluated at the failing input): `WahaApiClient.__init__`
accepts `rate_limit = 0` — no exception is raised and a client instance
with a non-positive rate limit exists; the crash surfaces only later, as an
`IndexError` inside `_wait_for_rate_limit`.  (A negative rate limit is
rejected, but only incidentally, by `deque(maxlen=...)`.) -/
theorem init_accepts_zero_rate_limit :
    waha_client_init 0 = .ok (0, []) ∧
      rateWait 0 [] 0 = .error .indexError ∧
      waha_client_init (-1) = .error .valueError :=
  ⟨rfl, rfl, rfl⟩

/-- C4: for a valid rate limit, `send_message` never raises to its caller:
whatever the gateway does, the call returns a boolean, and when every
attempt fails the returned value is `False` and the exception absorbed by
the final `except` block is the one raised by the last attempt. -/
theorem send_message_never_raises (N : Nat) (ts : List ℚ) (now fin : ℚ)
    (g : Nat → GatewayBehavior) (attempts : Nat) (delay : ℚ)
    (hN : 1 ≤ N) :
    (∃ o, send_message_full N ts now fin g attempts delay = .ok o) ∧
      (∀ err : Nat → WahaError, 1 ≤ attempts →
        (∀ i, make_request (g i) = .error (err i)) →
        ∃ o, send_message_full N ts now fin g attempts delay = .ok o ∧
          o.success = false ∧
          (async_retry (send_attempt g) attempts delay 10 2).result
            = .error (some (err attempts))) := by
  constructor
  · unfold send_message_full
    rw [wait_for_rate_limit_ok N hN]
    cases hres : (async_retry (send_attempt g) attempts delay 10 2).result with
    | ok b =>
        refine ⟨⟨b, admitOne N ts now fin,
          (async_retry (send_attempt g) attempts delay 10 2).calls,
          (async_retry (send_attempt g) attempts delay 10 2).sleeps, 1⟩, ?_⟩
        dsimp only
        rw [hres]
    | error e =>
        refine ⟨⟨false, admitOne N ts now fin,
          (async_retry (send_attempt g) attempts delay 10 2).calls,
          (async_retry (send_attempt g) attempts delay 10 2).sleeps, 1⟩, ?_⟩
        dsimp only
        rw [hres]
  · intro err hA hfail
    obtain ⟨r, hr⟩ := Nat.exists_eq_add_of_le hA
    subst hr
    obtain ⟨s, hs⟩ := retryLoop_allFail (send_attempt g) err
      (fun i => by simp [send_attempt, hfail i]) 2 10 r 1 delay
    have h1r : 1 + r = r + 1 := by omega
    rw [h1r] at hs
    have hra : async_retry (send_attempt g) (1 + r) delay 10 2 =
        ⟨.error (some (err (r + 1))), r + 1, s⟩ := by
      rw [h1r]; exact hs
    refine ⟨⟨false, admitOne N ts now fin, r + 1, s, 1⟩, ?_, rfl, ?_⟩
    · unfold send_message_full
      rw [wait_for_rate_limit_ok N hN]
      dsimp only
      rw [hra]
    · rw [hra, h1r]

/-- C9: whatever the gateway does and however many retry attempts are
configured, one `send_message` call acquires the rate limiter exactly once,
before the first attempt, and the deque afterwards is exactly the
one-append transition `admitOne` of the deque before — retries re-issue the
HTTP request but never touch the rate-limiter window. -/
theorem send_message_single_acquisition (N : Nat) (ts : List ℚ)
    (now fin : ℚ) (g : Nat → GatewayBehavior) (attempts : Nat) (delay : ℚ)
    (hN : 1 ≤ N) :
    ∃ o, send_message_full N ts now fin g attempts delay = .ok o ∧
      o.acquisitions = 1 ∧ o.timestamps = admitOne N ts now fin := by
  unfold send_message_full
  rw [wait_for_rate_limit_ok N hN]
  dsimp only
  cases hres : (async_retry (send_attempt g) attempts delay 10 2).result with
  | ok b =>
      exact ⟨⟨b, admitOne N ts now fin,
        (async_retry (send_attempt g) attempts delay 10 2).calls,
        (async_retry (send_attempt g) attempts delay 10 2).sleeps, 1⟩,
        rfl, rfl, rfl⟩
  | error e =>
      exact ⟨⟨false, admitOne N ts now fin,
        (async_retry (send_attempt g) attempts delay 10 2).calls,
        (async_retry (send_attempt g) attempts delay 10 2).sleeps, 1⟩,
        rfl, rfl, rfl⟩

/-- C9 witness: rate limit 1, empty deque, clock at 0, 3 attempts against
an all-401 gateway. -/
theorem send_message_single_acquisition_witness :
    ∃ o, send_message_full 1 [] 0 0 gateway401 3 1 = .ok o ∧
      o.acquisitions = 1 ∧ o.timestamps = admitOne 1 [] 0 0 :=
  send_message_single_acquisition 1 [] 0 0 gateway401 3 1 (by decide)

/-- C3: the (spec-modelled) `register_webhook` operation never raises, does
not consume a rate-limiter slot — the deque is returned unchanged and zero
acquisitions are made — and its observable retry behaviour (returned
boolean, request count, back-off sleeps) is identical to `send_message`'s
on the same gateway script with the same retry parameters. -/
theorem register_webhook_retry_no_slot (N : Nat) (ts : List ℚ)
    (g : Nat → GatewayBehavior) (attempts : Nat) (delay : ℚ) :
    ∃ o, register_webhook_full N ts g attempts delay = .ok o ∧
      o.timestamps = ts ∧ o.acquisitions = 0 ∧
      SendTrace.mk o.success o.calls o.sleeps = send_message g attempts delay := by
  unfold register_webhook_full send_message
  dsimp only
  cases hres : (async_retry (register_attempt g) attempts delay 10 2).result with
  | ok b =>
      refine ⟨⟨b, ts,
        (async_retry (register_attempt g) attempts delay 10 2).calls,
        (async_retry (register_attempt g) attempts delay 10 2).sleeps, 0⟩,
        rfl, rfl, rfl, ?_⟩
      have hres2 : (async_retry (send_attempt g) attempts delay 10 2).result
          = .ok b := hres
      rw [hres2]
      rfl
  | error e =>
      refine ⟨⟨false, ts,
        (async_retry (register_attempt g) attempts delay 10 2).calls,
        (async_retry (register_attempt g) attempts delay 10 2).sleeps, 0⟩,
        rfl, rfl, rfl, ?_⟩
      have hres2 : (async_retry (send_attempt g) attempts delay 10 2).result
          = .error e := hres
      rw [hres2]
      rfl

/-- C8 (counterexample): a 200 response whose JSON body parses to a
non-object (`null`, an array, ...) makes `get_session_status` and
`get_qr_code` raise an uncaught `AttributeError` (`response.get` on a
non-dict), instead of returning `None` without raising. -/
theorem get_status_raises_on_nonobject_body :
    get_session_status (fun _ => .resp 200 (some .null))
        = .error .attributeError ∧
      get_qr_code (fun _ => .resp 200 (some (.arr [])))
        = .error .attributeError ∧
      get_session_status (fun _ => .resp 200 (some .null)) ≠ .ok none :=
  ⟨rfl, rfl, fun h => nomatch h⟩

/-- C8 (amended): `get_session_status`, `get_qr_code` and `logout` consult
only the first gateway response (exactly one request, no retry); on every
classified failure (any non-200 status, network failure, invalid-JSON
body) the getters return `None` and `logout` returns `False`, without
raising; `logout` never raises for any behaviour; but a 200 response whose
JSON body is not an object makes the two getters raise `AttributeError`
(they return the object's field lookup otherwise). -/
theorem single_attempt_ops_contract (g : Nat → GatewayBehavior) :
    (∀ h : Nat → GatewayBehavior, g 1 = h 1 →
      get_session_status g = get_session_status h ∧
        get_qr_code g = get_qr_code h ∧ logout g = logout h) ∧
      (∃ b, logout g = .ok b) ∧
      (∀ e, make_request (g 1) = .error e →
        get_session_status g = .ok none ∧ get_qr_code g = .ok none ∧
          logout g = .ok false) ∧
      (∀ fields, make_request (g 1) = .ok (.obj fields) →
        get_session_status g = .ok (dictGet "status" fields) ∧
          get_qr_code g = .ok (dictGet "qr" fields) ∧ logout g = .ok true) := by
  refine ⟨?_, ?_, ?_, ?_⟩
  · intro h hgh
    exact ⟨by unfold get_session_status; rw [hgh],
      by unfold get_qr_code; rw [hgh], by unfold logout; rw [hgh]⟩
  · unfold logout
    cases hm : make_request (g 1) with
    | ok j => exact ⟨true, rfl⟩
    | error e => exact ⟨false, rfl⟩
  · intro e hm
    exact ⟨by unfold get_session_status; rw [hm],
      by unfold get_qr_code; rw [hm], by unfold logout; rw [hm]⟩
  · intro fields hm
    refine ⟨?_, ?_, ?_⟩
    · unfold get_session_status
      rw [hm]
      rfl
    · unfold get_qr_code
      rw [hm]
      rfl
    · unfold logout
      rw [hm]

/-- C8 witness for the amended contract, at an unreachable gateway. -/
theorem single_attempt_ops_contract_witness :
    get_session_status (fun _ => GatewayBehavior.netFail)
        = get_session_status (fun _ => GatewayBehavior.netFail) ∧
      get_session_status (fun _ => GatewayBehavior.netFail) = .ok none ∧
        get_qr_code (fun _ => GatewayBehavior.netFail) = .ok none ∧
        logout (fun _ => GatewayBehavior.netFail) = .ok false := by
  obtain ⟨h1, _, h3, _⟩ :=
    single_attempt_ops_contract (fun _ => GatewayBehavior.netFail)
  exact ⟨(h1 _ rfl).1, h3 .connection rfl⟩

/-- C4 witness: rate limit 1, a gateway that always answers 401, 3
attempts. -/
theorem send_message_never_raises_witness :
    (∃ o, send_message_full 1 [] 0 0 gateway401 3 1 = .ok o) ∧
      ∃ o, send_message_full 1 [] 0 0 gateway401 3 1 = .ok o ∧
        o.success = false ∧
        (async_retry (send_attempt gateway401) 3 1 10 2).result
          = .error (some (.authentication)) := by
  obtain ⟨h1, h2⟩ := send_message_never_raises 1 [] 0 0 gateway401 3 1
    (by decide)
  exact ⟨h1, h2 (fun _ => .authentication) (by decide) (fun i => rfl)⟩

/-- Filtering the kept characters down to digits yields exactly the digits
of the original input: `keepChar` keeps every digit. -/
theorem filter_keep_digits (s : List Char) :
    (s.filter keepChar).filter Char.isDigit = digitsOf s := by
  rw [digitsOf, List.filter_filter]
  refine List.filter_congr ?_
  intro a _
  cases hd : a.isDigit <;> simp [keepChar, hd]

/-- A list of digit characters is unchanged by the digit filter. -/
theorem filter_of_all_digits (ds : List Char) (h : ds.all Char.isDigit = true) :
    ds.filter Char.isDigit = ds :=
  List.filter_eq_self.mpr (List.all_eq_true.mp h)

/-- C10: `validate_phone_number` returns either `None` or `+` followed by
the 10-to-15 digits retained from the input, never anything else; and any
input whose digit content is outside 10-15 digits yields `None`. -/
theorem validate_phone_number_shape (s : List Char) :
    (validate_phone_number s = none ∨
      (validate_phone_number s = some ('+' :: digitsOf s) ∧
        10 ≤ (digitsOf s).length ∧ (digitsOf s).length ≤ 15)) ∧
      ((digitsOf s).length < 10 ∨ 15 < (digitsOf s).length →
        validate_phone_number s = none) := by
  have hmain : validate_phone_number s = none ∨
      (validate_phone_number s = some ('+' :: digitsOf s) ∧
        10 ≤ (digitsOf s).length ∧ (digitsOf s).length ≤ 15) := by
    unfold validate_phone_number
    by_cases hp : matchPlusDigits (s.filter keepChar) = true
    · rw [if_pos hp]
      right
      cases hcl : s.filter keepChar with
      | nil => rw [hcl] at hp; exact absurd hp (by simp [matchPlusDigits])
      | cons c ds =>
          rw [hcl] at hp
          simp only [matchPlusDigits, matchBareDigits, Bool.and_eq_true,
            beq_iff_eq, decide_eq_true_eq] at hp
          obtain ⟨hc, hall, h10, h15⟩ := hp
          subst hc
          have hds : ds = digitsOf s := by
            have h1 := filter_keep_digits s
            rw [hcl] at h1
            rw [List.filter_cons] at h1
            rw [if_neg (by decide : ¬ (Char.isDigit '+' = true))] at h1
            rw [filter_of_all_digits ds hall] at h1
            exact h1
          rw [hds]
          exact ⟨rfl, hds ▸ h10, hds ▸ h15⟩
    · rw [if_neg hp]
      by_cases hb : matchBareDigits (s.filter keepChar) = true
      · rw [if_pos hb]
        right
        have hb2 := hb
        simp only [matchBareDigits, Bool.and_eq_true, decide_eq_true_eq] at hb2
        obtain ⟨hall, h10, h15⟩ := hb2
        have hds : s.filter keepChar = digitsOf s := by
          have h1 := filter_keep_digits s
          rw [filter_of_all_digits _ hall] at h1
          exact h1
        rw [hds]
        exact ⟨rfl, hds ▸ h10, hds ▸ h15⟩
      · rw [if_neg hb]
        exact Or.inl rfl
  refine ⟨hmain, ?_⟩
  intro hout
  rcases hmain with h | ⟨_, h10, h15⟩
  · exact h
  · omega

/-- C10 witness: a well-formed eleven-digit input and a too-short input. -/
theorem validate_phone_number_shape_witness :
    ((digitsOf "123".toList).length < 10 ∨ 15 < (digitsOf "123".toList).length) ∧
      validate_phone_number "123".toList = none :=
  ⟨Or.inl (by decide), (validate_phone_number_shape "123".toList).2 (Or.inl (by decide))⟩

/-- C2: for every realizable sequence of `_wait_for_rate_limit`
acquisitions from an empty window (concurrent calls serialize, because the
lock is held across eviction, sleep and append), and for every window
endpoint `T`, at most `N` admitted timestamps lie in the trailing
60-second window `(T-60, T]`, where `N ≥ 1` is the configured rate
limit. -/
theorem rate_limiter_sliding_window (N : Nat) (hN : 1 ≤ N) (c0 : ℚ)
    (tr : List Acq) (hv : ValidTrace N [] c0 tr) (T : ℚ) :
    (admitted tr).countP (inWindow T) ≤ N := by
  obtain ⟨ts2, c2, inv⟩ :=
    validTrace_inv N hN tr [] [] c0 (Inv.initial N c0) hv
  rw [List.nil_append] at inv
  exact window_bound N (admitted tr) inv.mono inv.spacing T

/-- C2 witness: rate limit 1 and the boundary trace in which the second
acquisition is admitted exactly 60 seconds after the first. -/
theorem rate_limiter_sliding_window_witness :
    (admitted [Acq.mk 0 0, Acq.mk 0 60]).countP (inWindow 60) ≤ 1 :=
  rate_limiter_sliding_window 1 (by decide) 0 [Acq.mk 0 0, Acq.mk 0 60]
    (by simp +decide [ValidTrace, acqOK, admitOne, evict, dequeAppend]) 60

/-- C5: with an empty window and `N` rapid instantaneous acquisitions at
non-decreasing times `u 0 ≤ ... ≤ u (N-1)`, every one of the `N` calls
computes a zero wait (admitted immediately); the `(N+1)`-th call at time
`v < u 0 + 60` computes exactly `wait = 60 - (v - u 0)`, which is
positive, and resuming after that wait lands exactly at `u 0 + 60` — the
moment the oldest recorded timestamp turns 60 seconds old. -/
theorem rate_limiter_rapid_burst (N : Nat) (u : Nat → ℚ) (v : ℚ)
    (hN : 1 ≤ N)
    (hmono : ∀ i j, i ≤ j → j < N → u i ≤ u j)
    (hlast : u (N - 1) ≤ v)
    (hrapid : v < u 0 + 60) :
    (∀ k, k < N →
      rateWait N
        (runAcqs N [] ((List.range k).map (fun i => Acq.mk (u i) (u i))))
        (u k) = .ok 0) ∧
      rateWait N
        (runAcqs N [] ((List.range N).map (fun i => Acq.mk (u i) (u i)))) v
        = .ok (60 - (v - u 0)) ∧
      0 < 60 - (v - u 0) ∧
      v + (60 - (v - u 0)) = u 0 + 60 := by
  have hu0 : ∀ m, m < N → u m ≤ v := fun m hm =>
    le_trans (hmono m (N - 1) (by omega) (by omega)) hlast
  have hwin : ∀ m, m < N → u m - u 0 ≤ 60 := by
    intro m hm
    have h1 : u 0 ≤ u m := hmono 0 m (by omega) hm
    have h2 : u m ≤ v := hu0 m hm
    linarith
  refine ⟨?_, ?_, by linarith, by ring⟩
  · intro k hk
    rw [rapid_state N u k (by omega) (fun m hm => hwin m (by omega))]
    have hlen : (evict (u k) ((List.range k).map u)).length ≤ k := by
      obtain ⟨d, hd, _⟩ := evict_decomp (u k) ((List.range k).map u)
      have h3 := congrArg List.length hd
      rw [List.length_append, List.length_map, List.length_range] at h3
      omega
    unfold rateWait
    rw [if_neg (by omega :
      ¬ N ≤ (evict (u k) ((List.range k).map u)).length)]
  · rw [rapid_state N u N (le_refl N) hwin]
    obtain ⟨k2, hk2⟩ : ∃ k2, N = k2 + 1 := ⟨N - 1, by omega⟩
    subst hk2
    rw [List.range_succ_eq_map, List.map_cons]
    have hev : evict v (u 0 :: ((List.range k2).map Nat.succ).map u)
        = u 0 :: ((List.range k2).map Nat.succ).map u :=
      evict_fresh_head _ _ _ (by linarith)
    unfold rateWait
    rw [hev]
    rw [if_pos (by
      rw [List.length_cons, List.length_map, List.length_map, List.length_range] :
      k2 + 1 ≤ (u 0 :: ((List.range k2).map Nat.succ).map u).length)]
    show Except.ok (if 0 < 60 - (v - u 0) then 60 - (v - u 0) else 0)
        = Except.ok (60 - (v - u 0))
    rw [if_pos (by linarith : (0:ℚ) < 60 - (v - u 0))]

/-- C5 witness: rate limit 1, one instantaneous acquisition at time 0 and
a second call also at time 0, which must wait the full 60 seconds. -/
theorem rate_limiter_rapid_burst_witness :
    rateWait 1 (runAcqs 1 []
        ((List.range 1).map (fun _ => Acq.mk (0:ℚ) 0))) 0
      = .ok (60 - (0 - 0)) ∧ (0:ℚ) < 60 - (0 - 0) := by
  obtain ⟨h1, h2, h3, h4⟩ := rate_limiter_rapid_burst 1 (fun _ => 0) 0
    (by decide) (fun i j hij hj => le_refl 0) (le_refl 0) (by simp)
  exact ⟨h2, h3⟩

end Waha
